import Mathlib

/-!
Shallow embedding of the core numeric logic of the Kids Wealth Blueprint
repository (src/src/components/KidsWealthBlueprint.tsx):

* `calculateCompound` (source lines 20-69): the month-by-month compounding
  simulation with an optional age-based contribution schedule;
* the Y-axis scaling helpers `maxValue` (lines 123-175) and `yAxisTicks`
  (lines 178-227).

JavaScript numbers are modelled as exact rationals (`ℚ`); the rounded
currency values stored in each emitted point are integers (`ℤ`).
`Math.round x` is `⌊x + 1/2⌋` and `Math.ceil (a / b)` on integers with
`b > 0` is `-((-a) / b)` with Euclidean division.  The `for` loop
`for (month = 0; month <= totalMonths; month++)` runs for the integers
`m` with `m ≤ years * 12`, i.e. `0 ≤ m ≤ ⌊years * 12⌋` (and not at all
when `years * 12 < 0`), which is the range `(⌊years * 12⌋ + 1).toNat`.
-/

namespace KWB

/-- An entry of the optional contribution schedule: from `age` on, the
monthly contribution is `amount` (source line 26). -/
structure ScheduleEntry where
  age : ℚ
  amount : ℚ
  deriving DecidableEq

/-- A point of the produced yearly series (source lines 60-65): the age and
the rounded balance, rounded running contribution and rounded growth. -/
structure YearPoint where
  age : ℚ
  total : ℤ
  contributed : ℤ
  growth : ℤ
  deriving DecidableEq

/-- The order used by `[...contributionSchedule].sort((a, b) => b.age - a.age)`
(source line 40): descending by age; the JavaScript sort is stable, as is
`List.insertionSort`. -/
def schedGE (a b : ScheduleEntry) : Prop := b.age ≤ a.age

instance : DecidableRel schedGE := fun a b => inferInstanceAs (Decidable (b.age ≤ a.age))

instance : IsTotal ScheduleEntry schedGE := ⟨fun a b => le_total b.age a.age⟩

instance : IsTrans ScheduleEntry schedGE := ⟨fun _ _ _ hab hbc => le_trans hbc hab⟩

/-- `Math.round` on an exact rational: round half toward positive infinity. -/
def jsRound (q : ℚ) : ℤ := ⌊q + 1 / 2⌋

/-- `Math.ceil (a / b)` for integers `a`, `b` with `b > 0`. -/
def jsCeilDiv (a b : ℤ) : ℤ := -(-a / b)

/-- `getMonthlyAmountAtAge` (source lines 35-47): with an empty (or absent)
schedule return the flat `monthlyAmount`; otherwise sort a copy of the
schedule by descending age and return the amount of the first entry whose
age is at most the current age, falling back to `monthlyAmount`. -/
def getMonthlyAmountAtAge (contributionSchedule : List ScheduleEntry)
    (monthlyAmount age : ℚ) : ℚ :=
  if contributionSchedule.isEmpty then monthlyAmount
  else
    match (List.insertionSort schedGE contributionSchedule).find?
        (fun e => decide (e.age ≤ age)) with
    | some e => e.amount
    | none => monthlyAmount

/-- The simulation state `(balance, totalContributed)` after `m` months
(source lines 29-30 and 49-56): both components start at
`initialInvestment`; for every month `m + 1` the balance is multiplied by
`1 + annualReturn / 100 / 12` and the month's contribution is added to both
components. -/
def calcState (startAge monthlyAmount annualReturn initialInvestment : ℚ)
    (contributionSchedule : List ScheduleEntry) : ℕ → ℚ × ℚ
  | 0 => (initialInvestment, initialInvestment)
  | m + 1 =>
    let prev := calcState startAge monthlyAmount annualReturn initialInvestment
      contributionSchedule m
    let c := getMonthlyAmountAtAge contributionSchedule monthlyAmount
      (startAge + ((m : ℚ) + 1) / 12)
    (prev.1 * (1 + annualReturn / 100 / 12) + c, prev.2 + c)

/-- The record pushed at month `m` (source lines 59-66). -/
def mkYearPoint (startAge monthlyAmount annualReturn initialInvestment : ℚ)
    (contributionSchedule : List ScheduleEntry) (m : ℕ) : YearPoint :=
  let st := calcState startAge monthlyAmount annualReturn initialInvestment
    contributionSchedule m
  ⟨startAge + (m : ℚ) / 12, jsRound st.1, jsRound st.2, jsRound (st.1 - st.2)⟩

/-- `calculateCompound` (source lines 20-69): iterate the months
`0 ≤ m ≤ years * 12` and push a point at every month divisible by 12. -/
def calculateCompound (startAge monthlyAmount years annualReturn initialInvestment : ℚ)
    (contributionSchedule : List ScheduleEntry) : List YearPoint :=
  (List.range (⌊years * 12⌋ + 1).toNat).filterMap fun m =>
    if m % 12 = 0 then
      some (mkYearPoint startAge monthlyAmount annualReturn initialInvestment
        contributionSchedule m)
    else none

/-- The per-point value the axis helper maximises over (source line 127):
`max d.total d.contributed`. -/
def seriesVals (data : List YearPoint) : List ℤ :=
  data.map fun d => max d.total d.contributed

/-- The magnitude-banded step table (source lines 132-169, repeated
verbatim at lines 182-213). -/
def chooseStep (m : ℤ) : ℤ :=
  if 1000000 ≤ m then
    if m < 2000000 then 200000
    else if m < 5000000 then 500000
    else if m < 10000000 then 1000000
    else if m < 20000000 then 2000000
    else if m < 50000000 then 5000000
    else 10000000
  else if 100000 ≤ m then
    if 12 < jsCeilDiv m 10000 then 20000 else 10000
  else if 10000 ≤ m then
    if m < 20000 then 2000 else if m < 50000 then 5000 else 10000
  else if 1000 ≤ m then
    if m < 2000 then 500 else if m < 5000 then 1000 else 2000
  else if 100 ≤ m then
    if m < 200 then 50 else if m < 500 then 100 else 200
  else
    if m < 20 then 10 else if m < 50 then 20 else 50

/-- Snap to the first multiple of the chosen step at or above `m`
(source line 172). -/
def snapMax (m : ℤ) : ℤ := jsCeilDiv m (chooseStep m) * chooseStep m

/-- `maxValue` (source lines 123-175): 100000 for an empty series or a zero
true maximum, otherwise the snapped bound. -/
def maxValue (data : List YearPoint) : ℤ :=
  match (seriesVals data).max? with
  | none => 100000
  | some m => if m = 0 then 100000 else snapMax m

/-- The tick list computed from the already-snapped axis maximum `M`
(source lines 178-227): `[0, 100000]` when `M = 0`, otherwise `0` followed
by the positive multiples of the recomputed step that are at most `M`,
with `M` appended when it is not already the last element. -/
def ticksFor (M : ℤ) : List ℤ :=
  if M = 0 then [0, 100000]
  else
    let step := chooseStep M
    let t := 0 :: (List.range (M / step).toNat).map fun i : ℕ => ((i : ℤ) + 1) * step
    if t.getLastD 0 = M then t else t ++ [M]

/-- `yAxisTicks` (source lines 178-227). -/
def yAxisTicks (data : List YearPoint) : List ℤ := ticksFor (maxValue data)

/-!
A small heap model for the implicit frame claim: JavaScript arrays have
identity, and `getMonthlyAmountAtAge` sorts (in place) a fresh copy
`[...contributionSchedule]` of the caller's array, never the caller's array
itself.  A store is a list of arrays; array ids are store indices; the
spread allocates at the end of the store and `.sort()` overwrites the
allocated copy in place.
-/

/-- The heap of schedule arrays. -/
abbrev Store := List (List ScheduleEntry)

/-- `getMonthlyAmountAtAge` (source lines 35-47) with the array operations
made explicit against a store: read the caller's array, allocate the spread
copy, sort the copy in place, then search the sorted copy. -/
def getMonthlyAmountAtAgeH (monthlyAmount age : ℚ) (schedId : ℕ) (store : Store) :
    ℚ × Store :=
  let sched := store.getD schedId []
  if sched.isEmpty then (monthlyAmount, store)
  else
    let store1 := store ++ [sched]
    let sorted := List.insertionSort schedGE (store1.getD store.length [])
    let store2 := store1.set store.length sorted
    let amt :=
      match sorted.find? (fun e => decide (e.age ≤ age)) with
      | some e => e.amount
      | none => monthlyAmount
    (amt, store2)

/-- The simulation state of `calculateCompound` with the store threaded
through every monthly call to `getMonthlyAmountAtAgeH`. -/
def calcStateH (startAge monthlyAmount annualReturn initialInvestment : ℚ)
    (schedId : ℕ) (store : Store) : ℕ → (ℚ × ℚ) × Store
  | 0 => ((initialInvestment, initialInvestment), store)
  | m + 1 =>
    let prev := calcStateH startAge monthlyAmount annualReturn initialInvestment
      schedId store m
    let res := getMonthlyAmountAtAgeH monthlyAmount (startAge + ((m : ℚ) + 1) / 12)
      schedId prev.2
    ((prev.1.1 * (1 + annualReturn / 100 / 12) + res.1, prev.1.2 + res.1), res.2)

/-! ### Generic helper lemmas -/

theorem jsRound_intCast (z : ℤ) : jsRound (z : ℚ) = z := by
  unfold jsRound
  rw [add_comm, Int.floor_add_int]
  norm_num

theorem jsRound_sub_intCast (q : ℚ) (z : ℤ) : jsRound (q - (z : ℚ)) = jsRound q - z := by
  unfold jsRound
  have h : q - (z : ℚ) + 1 / 2 = (q + 1 / 2) - z := by ring
  rw [h, Int.floor_sub_int]

theorem jsRound_mono {a b : ℚ} (h : a ≤ b) : jsRound a ≤ jsRound b :=
  Int.floor_le_floor (by linarith)

theorem le_jsCeilDiv_mul {m s : ℤ} (hs : 0 < s) : m ≤ jsCeilDiv m s * s := by
  unfold jsCeilDiv
  have h1 := Int.ediv_add_emod (-m) s
  have h2 := Int.emod_nonneg (-m) (ne_of_gt hs)
  have h3 : -(-m / s) * s = -(s * (-m / s)) := by ring
  linarith

theorem jsCeilDiv_mul_emod (m s : ℤ) : jsCeilDiv m s * s % s = 0 :=
  Int.mul_emod_left _ _

theorem jsCeilDiv_mul_le {m s z : ℤ} (hs : 0 < s) (hz : s ∣ z) (hmz : m ≤ z) :
    jsCeilDiv m s * s ≤ z := by
  obtain ⟨k, rfl⟩ := hz
  unfold jsCeilDiv
  have h1 : -(s * k) / s = -k := by
    rw [show -(s * k) = s * (-k) by ring, Int.mul_ediv_cancel_left _ (ne_of_gt hs)]
  have h2 : -(s * k) ≤ -m := by linarith
  have h3 := Int.ediv_le_ediv hs h2
  rw [h1] at h3
  have h4 : -(-m / s) ≤ k := by linarith
  calc -(-m / s) * s ≤ k * s := mul_le_mul_of_nonneg_right h4 hs.le
  _ = s * k := by ring

theorem chooseStep_pos (m : ℤ) : 0 < chooseStep m := by
  unfold chooseStep
  split_ifs <;> norm_num

/-- Collecting the multiples of 12 out of the month loop: the loop over
months `0..N` emits exactly the points of months `0, 12, ..., 12 * (N / 12)`. -/
theorem filterMap_mod12 {α : Type} (g : ℕ → α) :
    ∀ N : ℕ, (List.range (N + 1)).filterMap
        (fun m => if m % 12 = 0 then some (g m) else none)
      = (List.range (N / 12 + 1)).map fun k => g (12 * k) := by
  intro N
  induction N with
  | zero =>
    rw [show List.range 1 = [0] from rfl]
    simp [List.filterMap_cons]
  | succ N ih =>
    rw [List.range_succ, List.filterMap_append, ih]
    by_cases h : (N + 1) % 12 = 0
    · have h1 : (N + 1) / 12 = N / 12 + 1 := by omega
      have h2 : 12 * (N / 12 + 1) = N + 1 := by omega
      rw [h1]
      conv_rhs => rw [List.range_succ]
      rw [List.map_append]
      simp [h, h2]
    · have h1 : (N + 1) / 12 = N / 12 := by omega
      simp [h, h1]

/-- `calculateCompound` with a whole number of years `y` emits the points of
months `0, 12, ..., 12 * y`. -/
theorem compound_natYears (sa ma ar ii : ℚ) (sched : List ScheduleEntry) (y : ℕ) :
    calculateCompound sa ma (y : ℚ) ar ii sched
      = (List.range (y + 1)).map fun k => mkYearPoint sa ma ar ii sched (12 * k) := by
  have hcast : (y : ℚ) * 12 = ((12 * y : ℕ) : ℚ) := by push_cast; ring
  have hfl : (⌊(y : ℚ) * 12⌋ + 1).toNat = 12 * y + 1 := by
    rw [hcast, Int.floor_natCast]
    omega
  have hdiv : 12 * y / 12 = y := by omega
  unfold calculateCompound
  rw [hfl, filterMap_mod12, hdiv]

/-! ### Schedule selection lemmas -/

/-- In a list sorted by descending age, the entry found by the linear scan
has the largest age among the applicable entries. -/
theorem find?_sorted_age_max {L : List ScheduleEntry} {a : ℚ} {e : ScheduleEntry}
    (hL : L.Sorted schedGE)
    (hfind : L.find? (fun x => decide (x.age ≤ a)) = some e) :
    ∀ e' ∈ L, e'.age ≤ a → e'.age ≤ e.age := by
  induction L with
  | nil => simp at hfind
  | cons x xs ih =>
    rcases List.sorted_cons.mp hL with ⟨hx, hxs⟩
    by_cases hpx : x.age ≤ a
    · rw [List.find?_cons_of_pos (p := fun y => decide (y.age ≤ a)) xs
        (decide_eq_true hpx)] at hfind
      obtain rfl : x = e := Option.some.inj hfind
      intro e' he' ha'
      rcases List.mem_cons.mp he' with rfl | hmem
      · exact le_refl _
      · exact hx e' hmem
    · rw [List.find?_cons_of_neg (p := fun y => decide (y.age ≤ a)) xs
        (by simpa using hpx)] at hfind
      intro e' he' ha'
      rcases List.mem_cons.mp he' with rfl | hmem
      · exact absurd ha' hpx
      · exact ih hxs hfind e' hmem ha'

/-- When some entry applies, `getMonthlyAmountAtAge` returns the amount of
an applicable entry of maximal age. -/
theorem getMonthlyAmountAtAge_max (s : List ScheduleEntry) (ma a : ℚ)
    (h : ∃ e ∈ s, e.age ≤ a) :
    ∃ e ∈ s, e.age ≤ a ∧ (∀ e' ∈ s, e'.age ≤ a → e'.age ≤ e.age) ∧
      getMonthlyAmountAtAge s ma a = e.amount := by
  obtain ⟨e0, he0, ha0⟩ := h
  have hne : s ≠ [] := by rintro rfl; simp at he0
  have hemp : s.isEmpty = false := by simpa [List.isEmpty_iff] using hne
  have hperm := List.perm_insertionSort schedGE s
  have hsorted := List.sorted_insertionSort schedGE s
  cases hfind : (List.insertionSort schedGE s).find? (fun x => decide (x.age ≤ a)) with
  | none =>
    rw [List.find?_eq_none] at hfind
    exact absurd (decide_eq_true ha0) (hfind e0 (hperm.mem_iff.mpr he0))
  | some e =>
    refine ⟨e, hperm.mem_iff.mp (List.mem_of_find?_eq_some hfind),
      by simpa using List.find?_some hfind, ?_, ?_⟩
    · intro e' he' ha'
      exact find?_sorted_age_max hsorted hfind e' (hperm.mem_iff.mpr he') ha'
    · simp [getMonthlyAmountAtAge, hemp, hfind]

/-- When no entry applies, `getMonthlyAmountAtAge` falls back to the base
monthly amount. -/
theorem getMonthlyAmountAtAge_of_none (s : List ScheduleEntry) (ma a : ℚ)
    (h : ∀ e ∈ s, ¬ e.age ≤ a) :
    getMonthlyAmountAtAge s ma a = ma := by
  by_cases hemp : s.isEmpty
  · simp [getMonthlyAmountAtAge, hemp]
  · have hfind : (List.insertionSort schedGE s).find? (fun x => decide (x.age ≤ a)) = none := by
      rw [List.find?_eq_none]
      intro x hx
      simpa using h x ((List.perm_insertionSort schedGE s).mem_iff.mp hx)
    simp [getMonthlyAmountAtAge, hemp, hfind]

/-- The selected contribution is the base amount or the amount of some
schedule entry. -/
theorem getMonthlyAmountAtAge_cases (s : List ScheduleEntry) (ma a : ℚ) :
    getMonthlyAmountAtAge s ma a = ma ∨
      ∃ e ∈ s, getMonthlyAmountAtAge s ma a = e.amount := by
  by_cases hemp : s.isEmpty
  · left; simp [getMonthlyAmountAtAge, hemp]
  · cases hfind : (List.insertionSort schedGE s).find? (fun x => decide (x.age ≤ a)) with
    | none => left; simp [getMonthlyAmountAtAge, hemp, hfind]
    | some e =>
      right
      exact ⟨e,
        (List.perm_insertionSort schedGE s).mem_iff.mp (List.mem_of_find?_eq_some hfind),
        by simp [getMonthlyAmountAtAge, hemp, hfind]⟩

theorem getMonthlyAmountAtAge_nonneg (s : List ScheduleEntry) (ma a : ℚ)
    (hma : 0 ≤ ma) (hs : ∀ e ∈ s, 0 ≤ e.amount) :
    0 ≤ getMonthlyAmountAtAge s ma a := by
  rcases getMonthlyAmountAtAge_cases s ma a with h | ⟨e, he, h⟩
  · rw [h]; exact hma
  · rw [h]; exact hs e he

/-- With pairwise distinct entry ages the selection does not depend on the
order in which the caller lists the entries. -/
theorem getMonthlyAmountAtAge_perm {s t : List ScheduleEntry} (hperm : s.Perm t)
    (hnd : (s.map (fun e => e.age)).Nodup) (ma a : ℚ) :
    getMonthlyAmountAtAge s ma a = getMonthlyAmountAtAge t ma a := by
  by_cases h : ∃ e ∈ s, e.age ≤ a
  · obtain ⟨e1, he1, ha1, hmax1, heq1⟩ := getMonthlyAmountAtAge_max s ma a h
    obtain ⟨e2, he2, ha2, hmax2, heq2⟩ := getMonthlyAmountAtAge_max t ma a
      (by obtain ⟨e, he, ha⟩ := h; exact ⟨e, hperm.mem_iff.mp he, ha⟩)
    have he2s : e2 ∈ s := hperm.mem_iff.mpr he2
    have h12 : e1.age ≤ e2.age := hmax2 e1 (hperm.mem_iff.mp he1) ha1
    have h21 : e2.age ≤ e1.age := hmax1 e2 he2s ha2
    have heq : e1 = e2 :=
      List.inj_on_of_nodup_map hnd he1 he2s (le_antisymm h12 h21)
    rw [heq1, heq2, heq]
  · rw [getMonthlyAmountAtAge_of_none s ma a (fun e he hle => h ⟨e, he, hle⟩),
      getMonthlyAmountAtAge_of_none t ma a
        (fun e he hle => h ⟨e, hperm.mem_iff.mpr he, hle⟩)]

/-- The single-override scenario: one entry at `startAge + 1`. -/
theorem getMonthlyAmountAtAge_single (sa A B : ℚ) (m : ℕ) :
    getMonthlyAmountAtAge [⟨sa + 1, A⟩] B (sa + (m : ℚ) / 12)
      = if 12 ≤ m then A else B := by
  have hiff : sa + 1 ≤ sa + (m : ℚ) / 12 ↔ 12 ≤ m := by
    rw [add_le_add_iff_left, le_div_iff₀ (by norm_num : (0 : ℚ) < 12), one_mul]
    exact_mod_cast Iff.rfl
  by_cases h12 : 12 ≤ m
  · have h := hiff.mpr h12
    simp [getMonthlyAmountAtAge, List.insertionSort, List.orderedInsert,
      List.find?_cons, h, h12]
  · have h : ¬ sa + 1 ≤ sa + (m : ℚ) / 12 := fun hc => h12 (hiff.mp hc)
    simp [getMonthlyAmountAtAge, List.insertionSort, List.orderedInsert,
      List.find?_cons, h, h12]

/-! ### Simulation state lemmas -/

theorem calcState_contrib_le_succ (sa ma ar ii : ℚ) (sched : List ScheduleEntry)
    (hma : 0 ≤ ma) (hs : ∀ e ∈ sched, 0 ≤ e.amount) (m : ℕ) :
    (calcState sa ma ar ii sched m).2 ≤ (calcState sa ma ar ii sched (m + 1)).2 := by
  have h := getMonthlyAmountAtAge_nonneg sched ma (sa + ((m : ℚ) + 1) / 12) hma hs
  simp only [calcState]
  linarith

theorem calcState_contrib_mono (sa ma ar ii : ℚ) (sched : List ScheduleEntry)
    (hma : 0 ≤ ma) (hs : ∀ e ∈ sched, 0 ≤ e.amount) :
    Monotone fun m => (calcState sa ma ar ii sched m).2 :=
  monotone_nat_of_le_succ fun m =>
    calcState_contrib_le_succ sa ma ar ii sched hma hs m

theorem calcState_contrib_int (sa ma ar : ℚ) (ii : ℤ) (sched : List ScheduleEntry)
    (hma : ∃ z : ℤ, ma = z) (hsched : ∀ e ∈ sched, ∃ z : ℤ, e.amount = z) (m : ℕ) :
    ∃ z : ℤ, (calcState sa ma ar (ii : ℚ) sched m).2 = z := by
  induction m with
  | zero => exact ⟨ii, rfl⟩
  | succ m ih =>
    obtain ⟨z, hz⟩ := ih
    have hc : ∃ w : ℤ, getMonthlyAmountAtAge sched ma (sa + ((m : ℚ) + 1) / 12) = w := by
      rcases getMonthlyAmountAtAge_cases sched ma (sa + ((m : ℚ) + 1) / 12) with h | ⟨e, he, h⟩
      · obtain ⟨w, hw⟩ := hma
        exact ⟨w, by rw [h, hw]⟩
      · obtain ⟨w, hw⟩ := hsched e he
        exact ⟨w, by rw [h, hw]⟩
    obtain ⟨w, hw⟩ := hc
    refine ⟨z + w, ?_⟩
    simp only [calcState, hz, hw]
    push_cast
    ring

/-! ### Tick list structure -/

/-- For a positive snapped maximum `M` the tick list is the arithmetic
progression of multiples of the recomputed step up to `M`, with `M` appended
when the step does not divide `M`; in particular the last tick is `M`. -/
theorem ticksFor_structure (M : ℤ) (hM : 0 < M) :
    ticksFor M
        = ((List.range ((M / chooseStep M).toNat + 1)).map
            fun i : ℕ => (i : ℤ) * chooseStep M)
          ++ (if chooseStep M ∣ M then [] else [M])
      ∧ (ticksFor M).getLastD 0 = M := by
  have hs := chooseStep_pos M
  have hMne : M ≠ 0 := ne_of_gt hM
  set s := chooseStep M with hsdef
  set k := (M / s).toNat with hkdef
  have hknn : (0 : ℤ) ≤ M / s := Int.ediv_nonneg hM.le hs.le
  have hkcast : (k : ℤ) = M / s := Int.toNat_of_nonneg hknn
  have hprog : (0 : ℤ) :: (List.range k).map (fun i : ℕ => ((i : ℤ) + 1) * s)
      = (List.range (k + 1)).map fun i : ℕ => (i : ℤ) * s := by
    rw [List.range_succ_eq_map, List.map_cons, List.map_map]
    simp only [Nat.cast_zero, zero_mul]
    congr 1
  have hlast : ((List.range (k + 1)).map (fun i : ℕ => (i : ℤ) * s)).getLastD 0
      = (k : ℤ) * s := by
    rw [List.range_succ, List.map_append]
    exact List.getLastD_concat _ _ _
  have hdvd_iff : (k : ℤ) * s = M ↔ s ∣ M := by
    constructor
    · intro h
      exact ⟨(k : ℤ), by rw [← h]; ring⟩
    · intro h
      rw [hkcast, Int.ediv_mul_cancel h]
  unfold ticksFor
  rw [if_neg hMne]
  simp only [← hsdef, ← hkdef, hprog, hlast]
  by_cases hdvd : s ∣ M
  · rw [if_pos (hdvd_iff.mpr hdvd), if_pos hdvd]
    refine ⟨by simp, ?_⟩
    rw [hlast, hdvd_iff.mpr hdvd]
  · have hne : (k : ℤ) * s ≠ M := fun hc => hdvd (hdvd_iff.mp hc)
    rw [if_neg hne, if_neg hdvd]
    exact ⟨rfl, List.getLastD_concat _ _ _⟩

/-! ### Heap model lemmas -/

/-- One heap call leaves the caller's array untouched and only grows the
store. -/
theorem getMonthlyAmountAtAgeH_frame (ma a : ℚ) (schedId : ℕ) (store : Store)
    (h : schedId < store.length) :
    (getMonthlyAmountAtAgeH ma a schedId store).2[schedId]? = store[schedId]?
      ∧ store.length ≤ (getMonthlyAmountAtAgeH ma a schedId store).2.length := by
  simp only [getMonthlyAmountAtAgeH]
  by_cases hemp : (store.getD schedId []).isEmpty
  · rw [if_pos hemp]
    exact ⟨rfl, le_refl _⟩
  · rw [if_neg hemp]
    constructor
    · show (List.set _ _ _)[schedId]? = store[schedId]?
      rw [List.getElem?_set_ne (Ne.symm (Nat.ne_of_lt h)), List.getElem?_append_left h]
    · show store.length ≤ (List.set _ _ _).length
      rw [List.length_set, List.length_append]
      simp


/-- The heap call computes the same amount as the pure function applied to
the caller's array. -/
theorem getMonthlyAmountAtAgeH_val (ma a : ℚ) (schedId : ℕ) (store : Store) :
    (getMonthlyAmountAtAgeH ma a schedId store).1
      = getMonthlyAmountAtAge (store.getD schedId []) ma a := by
  simp only [getMonthlyAmountAtAgeH, getMonthlyAmountAtAge]
  by_cases hemp : (store.getD schedId []).isEmpty
  · rw [if_pos hemp, if_pos hemp]
  · have hget : (store ++ [store.getD schedId []]).getD store.length []
        = store.getD schedId [] := by
      rw [List.getD_eq_getElem?_getD]
      simp
    rw [if_neg hemp, if_neg hemp, hget]

/-- The threaded simulation never changes the caller's array, only grows the
store, and computes the same state as the pure simulation. -/
theorem calcStateH_invariant (sa ma ar ii : ℚ) (schedId : ℕ) (store : Store)
    (h : schedId < store.length) (m : ℕ) :
    (calcStateH sa ma ar ii schedId store m).2[schedId]? = store[schedId]?
      ∧ store.length ≤ (calcStateH sa ma ar ii schedId store m).2.length
      ∧ (calcStateH sa ma ar ii schedId store m).1
          = calcState sa ma ar ii (store.getD schedId []) m := by
  induction m with
  | zero => exact ⟨rfl, le_refl _, rfl⟩
  | succ m ih =>
    obtain ⟨hframe, hlen, hval⟩ := ih
    have hlt : schedId < (calcStateH sa ma ar ii schedId store m).2.length :=
      lt_of_lt_of_le h hlen
    have hf := getMonthlyAmountAtAgeH_frame ma (sa + ((m : ℚ) + 1) / 12) schedId
      (calcStateH sa ma ar ii schedId store m).2 hlt
    have hv := getMonthlyAmountAtAgeH_val ma (sa + ((m : ℚ) + 1) / 12) schedId
      (calcStateH sa ma ar ii schedId store m).2
    have hsame : (calcStateH sa ma ar ii schedId store m).2.getD schedId []
        = store.getD schedId [] := by
      rw [List.getD_eq_getElem?_getD, List.getD_eq_getElem?_getD, hframe]
    refine ⟨?_, ?_, ?_⟩
    · simp only [calcStateH]
      rw [hf.1, hframe]
    · simp only [calcStateH]
      exact le_trans hlen hf.2
    · simp only [calcStateH, calcState]
      rw [hv, hsame, hval]

/-! ### Closed forms for two concrete runs -/

/-- Concrete run 1: `startAge=0, monthlyAmount=100, annualReturn=12,
initialInvestment=0`, no schedule. -/
theorem calcState_ex1 (m : ℕ) :
    calcState 0 100 12 0 [] m = (10000 * ((101 / 100 : ℚ) ^ m - 1), 100 * (m : ℚ)) := by
  induction m with
  | zero => norm_num [calcState]
  | succ m ih =>
    have hg : getMonthlyAmountAtAge [] 100 (0 + ((m : ℚ) + 1) / 12) = 100 := by
      simp [getMonthlyAmountAtAge]
    simp only [calcState, ih, hg]
    rw [Prod.mk.injEq]
    constructor
    · rw [pow_succ]
      ring
    · push_cast
      ring

/-- Concrete run 2: `startAge=0, monthlyAmount=0, annualReturn=12,
initialInvestment=1/2`, no schedule. -/
theorem calcState_ex2 (m : ℕ) :
    calcState 0 0 12 (1 / 2) [] m = (1 / 2 * (101 / 100 : ℚ) ^ m, 1 / 2) := by
  induction m with
  | zero => norm_num [calcState]
  | succ m ih =>
    have hg : getMonthlyAmountAtAge [] 0 (0 + ((m : ℚ) + 1) / 12) = 0 := by
      simp [getMonthlyAmountAtAge]
    simp only [calcState, ih, hg]
    rw [Prod.mk.injEq]
    constructor
    · rw [pow_succ]
      ring
    · norm_num

theorem mkYearPoint_ex1_0 : mkYearPoint 0 100 12 0 [] 0 = ⟨0, 0, 0, 0⟩ := by
  simp only [mkYearPoint, calcState_ex1, jsRound, YearPoint.mk.injEq]
  refine ⟨by norm_num, ?_, ?_, ?_⟩ <;>
    · rw [Int.floor_eq_iff]
      norm_num

theorem mkYearPoint_ex1_12 : mkYearPoint 0 100 12 0 [] 12 = ⟨1, 1268, 1200, 68⟩ := by
  simp only [mkYearPoint, calcState_ex1, jsRound, YearPoint.mk.injEq]
  refine ⟨by norm_num, ?_, ?_, ?_⟩ <;>
    · rw [Int.floor_eq_iff]
      norm_num

/-- The full output of the concrete run
`calculateCompound 0 100 1 12 0 []`. -/
theorem compound_ex1 : calculateCompound 0 100 1 12 0 [] =
    [⟨0, 0, 0, 0⟩, ⟨1, 1268, 1200, 68⟩] := by
  have h1 : ((1 : ℕ) : ℚ) = (1 : ℚ) := Nat.cast_one
  calc calculateCompound 0 100 1 12 0 []
      = calculateCompound 0 100 ((1 : ℕ) : ℚ) 12 0 [] := by rw [h1]
    _ = (List.range 2).map (fun k => mkYearPoint 0 100 12 0 [] (12 * k)) :=
        compound_natYears 0 100 12 0 [] 1
    _ = [mkYearPoint 0 100 12 0 [] 0, mkYearPoint 0 100 12 0 [] 12] := by
        rw [show List.range 2 = [0, 1] from rfl]
        simp
    _ = [⟨0, 0, 0, 0⟩, ⟨1, 1268, 1200, 68⟩] := by
        rw [mkYearPoint_ex1_0, mkYearPoint_ex1_12]

theorem mkYearPoint_ex2_72 : mkYearPoint 0 0 12 (1 / 2) [] 72 = ⟨6, 1, 1, 1⟩ := by
  simp only [mkYearPoint, calcState_ex2, jsRound, YearPoint.mk.injEq]
  refine ⟨by norm_num, ?_, ?_, ?_⟩ <;>
    · rw [Int.floor_eq_iff]
      norm_num

/-- The bad point of the run `calculateCompound 0 0 6 12 (1/2) []` is part of
its output. -/
theorem compound_ex2_mem :
    (⟨6, 1, 1, 1⟩ : YearPoint) ∈ calculateCompound 0 0 6 12 (1 / 2) [] := by
  have h6 : ((6 : ℕ) : ℚ) = (6 : ℚ) := by norm_num
  have h := compound_natYears 0 0 12 (1 / 2) [] 6
  rw [h6] at h
  rw [h, ← mkYearPoint_ex2_72]
  have : mkYearPoint 0 0 12 (1 / 2) [] 72
      = (fun k => mkYearPoint 0 0 12 (1 / 2) [] (12 * k)) 6 := by norm_num
  rw [this]
  exact List.mem_map_of_mem _ (by decide)

/-! ### Claim theorems -/

/-- C1: for integer `years ≥ 1`, `calculateCompound` returns exactly
`years + 1` points, one per month that is a multiple of 12 in age-ascending
order with ages `startAge + k` for `k = 0..years`; the first point is the
initial snapshot (state `(initialInvestment, initialInvestment)` at month 0,
no growth or contribution applied), every later month multiplies the balance
by `1 + annualReturnPercent / 100 / 12` and adds the month's contribution to
both balance and total contributed, and every emitted value is rounded to
the nearest integer currency unit. -/
theorem c1_compound_structure (sa ma ar ii : ℚ) (sched : List ScheduleEntry)
    (y : ℕ) (hy : 1 ≤ y) :
    calculateCompound sa ma (y : ℚ) ar ii sched
        = (List.range (y + 1)).map (fun k =>
            { age := sa + (k : ℚ)
              total := jsRound (calcState sa ma ar ii sched (12 * k)).1
              contributed := jsRound (calcState sa ma ar ii sched (12 * k)).2
              growth := jsRound ((calcState sa ma ar ii sched (12 * k)).1
                - (calcState sa ma ar ii sched (12 * k)).2) })
      ∧ calcState sa ma ar ii sched 0 = (ii, ii)
      ∧ ∀ m : ℕ, calcState sa ma ar ii sched (m + 1)
          = ((calcState sa ma ar ii sched m).1 * (1 + ar / 100 / 12)
               + getMonthlyAmountAtAge sched ma (sa + ((m : ℚ) + 1) / 12),
             (calcState sa ma ar ii sched m).2
               + getMonthlyAmountAtAge sched ma (sa + ((m : ℚ) + 1) / 12)) := by
  refine ⟨?_, rfl, fun m => rfl⟩
  rw [compound_natYears]
  apply List.map_congr_left
  intro k _
  have hage : sa + ((12 * k : ℕ) : ℚ) / 12 = sa + (k : ℚ) := by push_cast; ring
  simp [mkYearPoint, hage]

theorem c1_compound_structure_witness :
    (calculateCompound 0 100 ((1 : ℕ) : ℚ) 12 0 []).length = 2 := by
  rw [(c1_compound_structure 0 100 12 0 [] 1 (le_refl 1)).1]
  simp

/-- C2 counterexample: with two schedule entries carrying the same age but
different amounts, the selected contribution depends on the order in which
the caller lists the entries, contradicting the claimed order independence. -/
theorem c2_counterexample :
    ([⟨0, 1⟩, ⟨0, 2⟩] : List ScheduleEntry).Perm [⟨0, 2⟩, ⟨0, 1⟩]
      ∧ getMonthlyAmountAtAge [⟨0, 1⟩, ⟨0, 2⟩] 5 0 = 1
      ∧ getMonthlyAmountAtAge [⟨0, 2⟩, ⟨0, 1⟩] 5 0 = 2
      ∧ (1 : ℚ) ≠ 2 := by
  refine ⟨List.Perm.swap _ _ _, ?_, ?_, by norm_num⟩ <;>
    simp [getMonthlyAmountAtAge, List.insertionSort, List.orderedInsert, schedGE,
      List.find?]

/-- C2 amended: when the schedule's entry ages are pairwise distinct, the
selected contribution is the amount of the applicable entry with the largest
age (the base amount when no entry applies), independently of the caller's
ordering of the entries; and with the single override
`[{age: startAge+1, amount: A}]` over base `B`, months before age
`startAge + 1` contribute `B` and months at or after it contribute `A`.
With duplicated ages, the result may depend on the caller's order. -/
theorem c2_schedule_selection :
    (∀ (s : List ScheduleEntry) (ma a : ℚ),
        ((∃ e ∈ s, e.age ≤ a) →
          ∃ e ∈ s, e.age ≤ a ∧ (∀ e' ∈ s, e'.age ≤ a → e'.age ≤ e.age) ∧
            getMonthlyAmountAtAge s ma a = e.amount)
        ∧ ((∀ e ∈ s, ¬ e.age ≤ a) → getMonthlyAmountAtAge s ma a = ma)
        ∧ (∀ t : List ScheduleEntry, s.Perm t → (s.map fun e => e.age).Nodup →
            getMonthlyAmountAtAge s ma a = getMonthlyAmountAtAge t ma a))
      ∧ ∀ (sa A B : ℚ) (m : ℕ),
          getMonthlyAmountAtAge [⟨sa + 1, A⟩] B (sa + (m : ℚ) / 12)
            = if 12 ≤ m then A else B :=
  ⟨fun s ma a => ⟨getMonthlyAmountAtAge_max s ma a,
      getMonthlyAmountAtAge_of_none s ma a,
      fun _ hperm hnd => getMonthlyAmountAtAge_perm hperm hnd ma a⟩,
    getMonthlyAmountAtAge_single⟩

theorem c2_schedule_selection_witness :
    getMonthlyAmountAtAge [⟨0 + 1, 7⟩] 3 (0 + ((12 : ℕ) : ℚ) / 12) = 7 := by
  have h := c2_schedule_selection.2 0 7 3 12
  simpa using h

/-- C3: for a non-empty series with positive true maximum `m`, the axis
maximum is `ceil(m / step) * step` for the banded step: a multiple of the
step, at least `m`, minimal among such multiples, and it dominates both the
total and the contributed series. -/
theorem c3_axis_max (data : List YearPoint) (m : ℤ)
    (hm : (seriesVals data).max? = some m) (hpos : 0 < m) :
    maxValue data = jsCeilDiv m (chooseStep m) * chooseStep m
      ∧ maxValue data % chooseStep m = 0
      ∧ m ≤ maxValue data
      ∧ (∀ z : ℤ, z % chooseStep m = 0 → m ≤ z → maxValue data ≤ z)
      ∧ ∀ d ∈ data, d.total ≤ maxValue data ∧ d.contributed ≤ maxValue data := by
  have hstep := chooseStep_pos m
  have hmv : maxValue data = jsCeilDiv m (chooseStep m) * chooseStep m := by
    simp only [maxValue, hm]
    rw [if_neg (ne_of_gt hpos)]
    rfl
  haveI : Std.Antisymm ((· : ℤ) ≤ ·) := ⟨fun h1 h2 => le_antisymm h1 h2⟩
  have hall : ∀ b ∈ seriesVals data, b ≤ m := by
    rw [List.max?_eq_some_iff (fun x => le_refl x) (fun x y => max_choice x y)
      (fun x y z => max_le_iff)] at hm
    exact hm.2
  refine ⟨hmv, ?_, ?_, ?_, ?_⟩
  · rw [hmv]
    exact jsCeilDiv_mul_emod m (chooseStep m)
  · rw [hmv]
    exact le_jsCeilDiv_mul hstep
  · intro z hz hmz
    rw [hmv]
    exact jsCeilDiv_mul_le hstep (Int.dvd_of_emod_eq_zero hz) hmz
  · intro d hd
    have hmem : max d.total d.contributed ∈ seriesVals data :=
      List.mem_map_of_mem _ hd
    have hle : max d.total d.contributed ≤ m := hall _ hmem
    have hub : m ≤ maxValue data := by
      rw [hmv]
      exact le_jsCeilDiv_mul hstep
    exact ⟨le_trans (le_trans (le_max_left _ _) hle) hub,
      le_trans (le_trans (le_max_right _ _) hle) hub⟩

theorem c3_axis_max_witness :
    maxValue [⟨0, 950, 100, 850⟩] = 1000
      ∧ (950 : ℤ) ≤ maxValue [⟨0, 950, 100, 850⟩] := by
  have h := c3_axis_max [⟨0, 950, 100, 850⟩] 950 (by decide) (by decide)
  refine ⟨?_, h.2.2.1⟩
  rw [h.1]
  decide

/-- C4 counterexample: for a series with true maximum 45 the step selected
while computing the axis maximum is 20 (band below 50) and the snapped
maximum is 60, but the tick list is `[0, 50, 60]` — computed with the step
50 recomputed from the snapped maximum 60, not with the step 20, and it is
not the arithmetic progression `[0, 20, 40, 60]` the claim describes. -/
theorem c4_counterexample :
    chooseStep 45 = 20
      ∧ maxValue [⟨0, 45, 30, 15⟩] = 60
      ∧ yAxisTicks [⟨0, 45, 30, 15⟩] = [0, 50, 60]
      ∧ yAxisTicks [⟨0, 45, 30, 15⟩] ≠ [0, 20, 40, 60] := by decide

/-- C4 amended: the tick list is built from the step recomputed (by the same
banded table) from the snapped axis maximum `M`, which may differ from the
step used to compute `M`: it is the arithmetic progression of the multiples
of that step up to `M`, with `M` appended when the step does not divide `M`;
the last tick always equals `M` exactly. -/
theorem c4_ticks_structure (data : List YearPoint) (h : 0 < maxValue data) :
    yAxisTicks data
        = ((List.range ((maxValue data / chooseStep (maxValue data)).toNat + 1)).map
            fun i : ℕ => (i : ℤ) * chooseStep (maxValue data))
          ++ (if chooseStep (maxValue data) ∣ maxValue data then []
              else [maxValue data])
      ∧ (yAxisTicks data).getLastD 0 = maxValue data :=
  ticksFor_structure (maxValue data) h

theorem c4_ticks_structure_witness :
    (yAxisTicks [⟨0, 45, 30, 15⟩]).getLastD 0 = maxValue [⟨0, 45, 30, 15⟩] :=
  (c4_ticks_structure [⟨0, 45, 30, 15⟩] (by decide)).2

/-- C5 counterexample: with `startAge=0, monthlyAmount=0, years=6,
annualReturnPercent=12, initialInvestment=1/2`, the year-6 point is
`{age 6, total 1, contributed 1, growth 1}`: its growth field (the rounded
exact difference) is 1, while total − contributed is 0. -/
theorem c5_counterexample :
    (⟨6, 1, 1, 1⟩ : YearPoint) ∈ calculateCompound 0 0 6 12 (1 / 2) []
      ∧ (⟨6, 1, 1, 1⟩ : YearPoint).growth
          ≠ (⟨6, 1, 1, 1⟩ : YearPoint).total - (⟨6, 1, 1, 1⟩ : YearPoint).contributed :=
  ⟨compound_ex2_mem, by decide⟩

/-- C5 amended: the growth field is the rounded value of the exact balance
minus the exact running contribution; when the base monthly amount, every
schedule amount and the initial investment are whole currency units it
equals `total - contributed` in every emitted point (in general the two can
differ, as rounding is applied to the difference). -/
theorem c5_growth_field (sa ma yr ar : ℚ) (ii : ℤ) (sched : List ScheduleEntry)
    (hma : ∃ z : ℤ, ma = z) (hsched : ∀ e ∈ sched, ∃ z : ℤ, e.amount = z) :
    ∀ p ∈ calculateCompound sa ma yr ar (ii : ℚ) sched,
      p.growth = p.total - p.contributed := by
  intro p hp
  simp only [calculateCompound, List.mem_filterMap] at hp
  obtain ⟨mn, _, hsome⟩ := hp
  by_cases hmod : mn % 12 = 0
  · rw [if_pos hmod] at hsome
    obtain rfl := Option.some.inj hsome
    obtain ⟨z, hz⟩ := calcState_contrib_int sa ma ar ii sched hma hsched mn
    simp only [mkYearPoint, hz, jsRound_intCast, jsRound_sub_intCast]
  · rw [if_neg hmod] at hsome
    exact absurd hsome (by simp)

theorem c5_growth_field_witness :
    (⟨1, 1268, 1200, 68⟩ : YearPoint).growth
      = (⟨1, 1268, 1200, 68⟩ : YearPoint).total
        - (⟨1, 1268, 1200, 68⟩ : YearPoint).contributed := by
  apply c5_growth_field 0 100 1 12 (0 : ℤ) [] ⟨100, by norm_num⟩ (by simp)
  rw [show ((0 : ℤ) : ℚ) = 0 by norm_num, compound_ex1]
  simp

/-- C6: when the base monthly amount and every schedule amount are
non-negative, the contributed values of the produced series are
non-decreasing from the first point to the last. -/
theorem c6_contributed_monotone (sa ma yr ar ii : ℚ) (sched : List ScheduleEntry)
    (hma : 0 ≤ ma) (hs : ∀ e ∈ sched, 0 ≤ e.amount) :
    ((calculateCompound sa ma yr ar ii sched).map fun p => p.contributed).Sorted
      (· ≤ ·) := by
  unfold calculateCompound
  cases hN : (⌊yr * 12⌋ + 1).toNat with
  | zero => simp
  | succ N =>
    rw [filterMap_mod12, List.map_map]
    show List.Pairwise _ _
    refine List.Pairwise.map _ (fun a b hab => ?_) (List.pairwise_lt_range _)
    show (mkYearPoint sa ma ar ii sched (12 * a)).contributed
      ≤ (mkYearPoint sa ma ar ii sched (12 * b)).contributed
    simp only [mkYearPoint]
    exact jsRound_mono
      (calcState_contrib_mono sa ma ar ii sched hma hs
        (by omega : 12 * a ≤ 12 * b))

theorem c6_contributed_monotone_witness :
    ((calculateCompound 0 1 1 0 0 []).map fun p => p.contributed).Sorted (· ≤ ·) :=
  c6_contributed_monotone 0 1 1 0 0 [] (by norm_num) (by simp)

/-- C7 counterexample: for the empty series the axis maximum is the default
100000, but the tick list is the full 10000-step progression up to 100000,
not `[0, 100000]`. -/
theorem c7_counterexample :
    maxValue [] = 100000 ∧ yAxisTicks [] ≠ [0, 100000] := by decide

/-- C7 amended: for an empty series or a zero true maximum the axis helper
returns the default bound 100000, and the tick list is the progression
`[0, 10000, ..., 100000]` computed from that default (eleven ticks), not
`[0, 100000]`. -/
theorem c7_default_bound (data : List YearPoint)
    (h : data = [] ∨ (seriesVals data).max? = some 0) :
    maxValue data = 100000
      ∧ yAxisTicks data = [0, 10000, 20000, 30000, 40000, 50000, 60000, 70000,
          80000, 90000, 100000] := by
  have hmv : maxValue data = 100000 := by
    rcases h with rfl | hsome
    · rfl
    · simp [maxValue, hsome]
  refine ⟨hmv, ?_⟩
  show ticksFor (maxValue data) = _
  rw [hmv]
  decide

theorem c7_default_bound_witness :
    maxValue ([] : List YearPoint) = 100000
      ∧ yAxisTicks ([] : List YearPoint) = [0, 10000, 20000, 30000, 40000, 50000,
          60000, 70000, 80000, 90000, 100000] :=
  c7_default_bound [] (Or.inl rfl)

/-- C8 counterexample: for `startAge=0, monthlyAmount=100, years=1,
annualReturnPercent=12, initialInvestment=0` the year-1 point has
`contributed = 1200` but `total = 1268`, not approximately 1280 (1280 is not
the rounded result of the stated recurrence). -/
theorem c8_counterexample :
    (calculateCompound 0 100 1 12 0 []).getLastD ⟨0, 0, 0, 0⟩
        = ⟨1, 1268, 1200, 68⟩
      ∧ (1268 : ℤ) ≠ 1280 := by
  refine ⟨?_, by decide⟩
  rw [compound_ex1]
  rfl

/-- C8 amended: for that input the year-1 point has `contributed = 1200` and
`total = 1268`, the rounded result of 12 iterations of
`balance <- balance * 1.01 + 100` from 0 (`growth = 68`). -/
theorem c8_example_run :
    calculateCompound 0 100 1 12 0 [] = [⟨0, 0, 0, 0⟩, ⟨1, 1268, 1200, 68⟩]
      ∧ jsRound ((fun b : ℚ => b * (101 / 100) + 100)^[12] 0) = 1268 := by
  refine ⟨compound_ex1, ?_⟩
  have hit : ∀ m : ℕ, (fun b : ℚ => b * (101 / 100) + 100)^[m] 0
      = 10000 * ((101 / 100 : ℚ) ^ m - 1) := by
    intro m
    induction m with
    | zero => norm_num
    | succ m ih =>
      rw [Function.iterate_succ_apply', ih, pow_succ]
      ring
  rw [hit, jsRound]
  rw [Int.floor_eq_iff]
  norm_num

/-- C9: both core computations are total: the simulation output is a finite
list with at most one point per iterated month, every band of the step table
yields a positive step (so the tick loop `current += step` terminates), and
the tick list is finite with at most `M / step + 3` elements. -/
theorem c9_totality :
    (∀ m : ℤ, 0 < chooseStep m)
      ∧ (∀ sa ma yr ar ii : ℚ, ∀ sched : List ScheduleEntry,
          (calculateCompound sa ma yr ar ii sched).length ≤ (⌊yr * 12⌋ + 1).toNat)
      ∧ ∀ data : List YearPoint,
          (yAxisTicks data).length
            ≤ (maxValue data / chooseStep (maxValue data)).toNat + 3 := by
  refine ⟨chooseStep_pos, ?_, ?_⟩
  · intro sa ma yr ar ii sched
    calc (calculateCompound sa ma yr ar ii sched).length
        ≤ (List.range (⌊yr * 12⌋ + 1).toNat).length := List.length_filterMap_le _ _
      _ = (⌊yr * 12⌋ + 1).toNat := List.length_range _
  · intro data
    show (ticksFor (maxValue data)).length ≤ _
    simp only [ticksFor]
    by_cases hM : maxValue data = 0
    · rw [if_pos hM, hM]
      simp
    · rw [if_neg hM]
      by_cases hlast : ((0 : ℤ) :: (List.range
            ((maxValue data / chooseStep (maxValue data)).toNat)).map
            fun i : ℕ => ((i : ℤ) + 1) * chooseStep (maxValue data)).getLastD 0
          = maxValue data
      · rw [if_pos hlast]
        simp
      · rw [if_neg hlast]
        simp

/-- C10: the simulation never modifies the caller's schedule array: with the
array operations of `getMonthlyAmountAtAge` modelled against a store, after
any number of months the caller's array still holds the same entries in the
same order, and the computed state agrees with the pure simulation. -/
theorem c10_schedule_not_mutated (sa ma ar ii : ℚ) (schedId : ℕ) (store : Store)
    (h : schedId < store.length) (m : ℕ) :
    (calcStateH sa ma ar ii schedId store m).2[schedId]? = store[schedId]?
      ∧ (calcStateH sa ma ar ii schedId store m).1
          = calcState sa ma ar ii (store.getD schedId []) m := by
  obtain ⟨h1, _, h3⟩ := calcStateH_invariant sa ma ar ii schedId store h m
  exact ⟨h1, h3⟩

theorem c10_schedule_not_mutated_witness :
    (calcStateH 0 5 8 0 0 [[⟨1, 2⟩]] 1).2[0]?
      = ([[⟨1, 2⟩]] : Store)[0]? :=
  (c10_schedule_not_mutated 0 5 8 0 0 [[⟨1, 2⟩]] (by decide) 1).1

end KWB
